import Mathlib

/-!
Shallow embedding of the core composition and routing subsystem of the
organelle repository (a reactive, message-passing component library).

The repository mixes several historical revisions of the same library:
  * `src/lib.rs`        — the Protocol / Lobe / Cortex revision, with the
                          driver `run` and `Protocol::convert_protocol`;
  * `src/organelle.rs`  — the Impulse / Soma revision, with
                          `Organelle::add_soma`, `init`, `start`,
                          `add_input`, `add_output`, `update` and
                          `into_future`;
  * `src/axon.rs`       — the Axon revision with `add_dendrite`,
                          `add_terminal`, `start` and `update`.

Asynchronous channels are modelled as explicit FIFO queues (Lean lists);
a driver or adapter task becomes a structurally recursive function over
the list of impulses it dequeues.  The cooperative single-threaded
scheduler is rendered sequentially: each dequeued impulse is processed to
quiescence before the next one, and the interleaving of concurrently
produced messages in a queue is an explicit input of each theorem.
Uuid values are modelled as natural numbers.
-/

namespace OrganelleSpec

/-- Soma / lobe identifiers (`uuid::Uuid`, `Handle`) modelled as naturals. -/
abbrev Handle := Nat

/-- The kinds of the error-chain `Error` type surfaced by the library:
`Msg`, `LobeError` (lib.rs revision), `SomaError` (organelle.rs revision),
`InvalidSynapse` and `MissingSynapse` (axon.rs revision).
`unreachableBranch` is a marker for a Rust `unreachable!()` panic, so that
theorems can state that those branches are never executed; `panicked`
marks any other Rust panic (a `panic!(msg)`, or `Option::unwrap` on
`None`). -/
inductive CErrorKind where
  | msg (s : String)
  | lobeError
  | somaError
  | invalidSynapse (s : String)
  | missingSynapse (s : String)
  | unreachableBranch
  | panicked (s : String)
  deriving DecidableEq, Repr

/-- An error-chain `Error`: a kind, optionally chained onto a cause.
`Error::with_chain(e, k)` is modelled as `CError.chained k e`. -/
inductive CError where
  | simple (k : CErrorKind)
  | chained (k : CErrorKind) (cause : CError)
  deriving DecidableEq, Repr

/-- `e.wrapsB cause` holds when `cause` occurs in the cause chain of `e`. -/
def CError.wrapsB : CError → CError → Bool
  | .simple _, _ => false
  | .chained _ c, e => if c = e then true else CError.wrapsB c e

/-- Whether the outermost kind of an error is `MissingSynapse`. -/
def CError.isMissingSynapse : CError → Bool
  | .simple (.missingSynapse _) => true
  | .chained (.missingSynapse _) _ => true
  | _ => false

/-- Result of a driver event loop:
`pending` — the queue was exhausted with no termination event (the real
stream would simply stay parked); `finished` — a `Stop` was consumed and
the driver resolves `Ok(())`; `failed e` — the driver resolves `Err(e)`;
`panicked` — an `unreachable!()` arm of the driver was hit. -/
inductive DriverOutcome where
  | pending
  | finished
  | failed (e : CError)
  | panicked
  deriving DecidableEq, Repr

/-! ### The Protocol revision (`src/lib.rs`)

`Protocol<M, C>` is the impulse sum type of the lib.rs revision.  The
`Init` payload (an `Effector`) is opaque to everything we verify, so it is
a type parameter `E`. -/

/-- `Protocol<M, C>` from `src/lib.rs` (`E` = the opaque `Effector`). -/
inductive Protocol (E M C : Type) where
  | init (eff : E)
  | addInput (h : Handle) (c : C)
  | addOutput (h : Handle) (c : C)
  | start
  | payload (src dest : Handle) (m : M)
  | message (src : Handle) (m : M)
  | stop
  | err (e : CError)
  deriving DecidableEq

/-- `Protocol::convert_protocol` from `src/lib.rs` (lines 81–127).  The
user-supplied `From`/`Into` conversions become explicit functions: `fe`
rewraps the effector (the source closes over the old sender), `fm`
converts the message, `fc` converts the constraint; `Start`, `Stop` and
`Err` are carried over unchanged. -/
def Protocol.convert_protocol (fe : E → F) (fm : M → T) (fc : C → U) :
    Protocol E M C → Protocol F T U
  | .init eff => .init (fe eff)
  | .addInput h c => .addInput h (fc c)
  | .addOutput h c => .addOutput h (fc c)
  | .start => .start
  | .payload src dest m => .payload src dest (fm m)
  | .message src m => .message src (fm m)
  | .stop => .stop
  | .err e => .err e

/-- Result of the lib.rs driver loop: its outcome, the final root node
state, and the list of impulses that were actually passed to the root
node's `update` (in order). -/
structure RunResult (N E M C : Type) where
  outcome : DriverOutcome
  node : N
  delivered : List (Protocol E M C)
  deriving DecidableEq

/-- The driver `run` from `src/lib.rs` (lines 671–726), sequentially:
the queue is cut by `take_while` at the first `Stop` (which resolves the
stream, hence `Ok`); `Protocol::Err(e)` is turned into `Err(e)` and sent
to the error channel, which the `select` surfaces; a `Payload(src, dest,
m)` is delivered to the root as `Message(src, m)` (the driver asserts
`dest` is the main handle, elided here); an `update` error is likewise
surfaced through the error channel; `Message` hits the driver's
`unreachable!()` arm.  In this sequential rendering the first
termination event in queue order decides the outcome. -/
def libRun (update : N → Protocol E M C → Except CError N) :
    N → List (Protocol E M C) → RunResult N E M C
  | n, [] => ⟨.pending, n, []⟩
  | n, imp :: rest =>
    match imp with
    | .stop => ⟨.finished, n, []⟩
    | .err e => ⟨.failed e, n, []⟩
    | .message _ _ => ⟨.panicked, n, []⟩
    | .payload src _ m =>
      match update n (.message src m) with
      | .ok n2 =>
        let r := libRun update n2 rest
        ⟨r.outcome, r.node, .message src m :: r.delivered⟩
      | .error e => ⟨.failed e, n, [.message src m]⟩
    | other =>
      match update n other with
      | .ok n2 =>
        let r := libRun update n2 rest
        ⟨r.outcome, r.node, other :: r.delivered⟩
      | .error e => ⟨.failed e, n, [other]⟩

/-! ### The Impulse / Soma revision (`src/organelle.rs`)

`src/organelle.rs` imports `Impulse` from its crate root, whose revision
is absent from `src/` (the `src/lib.rs` present is the older Protocol
revision).  The datatype below is therefore modelled from the spec. -/

/-- Modelled from the spec: the `Impulse<Signal, Synapse>` sum type of the
organelle.rs revision, whose defining module is missing from `src/`; only
its consumer `src/organelle.rs` is present.  Variants follow spec §3 and
the exhaustive uses in `organelle.rs`: `Init(parent, effector)`,
`AddInput`, `AddOutput`, `Start`, `Payload(src, dest, signal)`,
`Signal(src, signal)`, `Probe(dest)`, `Stop`, `Err(error)`.  `E` is the
opaque `Effector`, `Sg` the signal type, `Sy` the synapse (role) type. -/
inductive OImpulse (E Sg Sy : Type) where
  | init (parent : Option Handle) (eff : E)
  | addInput (h : Handle) (role : Sy)
  | addOutput (h : Handle) (role : Sy)
  | start
  | payload (src dest : Handle) (sig : Sg)
  | signal (src : Handle) (sig : Sg)
  | probe (dest : Handle)
  | stop
  | err (e : CError)
  deriving DecidableEq

/-- One step of the per-child adapter task installed by
`Organelle::add_soma` (`src/organelle.rs` lines 99–127): the fold state is
`Option<T>`; when it is `None` the impulse is discarded without touching
the child; otherwise the impulse is converted to the child's types
(`conv`, standing for `Impulse::convert_protocol`) and folded into
`child.update`; an `Ok` child replaces the state, an `Err(e)` child sends
`Impulse::Err(Error::with_chain(e, ErrorKind::SomaError))` to the
organelle's main channel and the state becomes `None`.
Returns (new state, impulses emitted on the main channel, impulses
applied to the child's `update`). -/
def adapterStep (conv : OImpulse E Sg Sy → OImpulse F Tg Ty)
    (update : T → OImpulse F Tg Ty → Except CError T)
    (st : Option T) (imp : OImpulse E Sg Sy) :
    Option T × List (OImpulse E Sg Sy) × List (OImpulse F Tg Ty) :=
  match st with
  | none => (none, [], [])
  | some soma =>
    match update soma (conv imp) with
    | .ok soma2 => (some soma2, [], [conv imp])
    | .error e =>
      (none, [.err (.chained .somaError e)], [conv imp])

/-- The adapter task of `Organelle::add_soma` run over the whole FIFO
inbox of one child: `rx.fold(Some(soma), ...)`, accumulating the impulses
emitted on the organelle's main channel and the impulses applied to the
child (in order). -/
def adapterRun (conv : OImpulse E Sg Sy → OImpulse F Tg Ty)
    (update : T → OImpulse F Tg Ty → Except CError T) :
    Option T → List (OImpulse E Sg Sy) →
    Option T × List (OImpulse E Sg Sy) × List (OImpulse F Tg Ty)
  | st, [] => (st, [], [])
  | st, imp :: rest =>
    let s := adapterStep conv update st imp
    let r := adapterRun conv update s.1 rest
    (r.1, s.2.1 ++ r.2.1, s.2.2 ++ r.2.2)

/-- The driver loop of `Organelle::into_future` (`src/organelle.rs` lines
398–459), sequentially over the main channel's queue: `take_while` cuts
the stream at the first `Stop` (the whole future then resolves `Ok(())`);
`Init`, `AddInput`, `AddOutput`, `Start` are folded into the root soma's
`update`; `Payload(src, dest, m)` is folded as `Signal(src, m)` and
`Probe(dest)` as itself (the asserts on `dest` are elided); an
`Impulse::Err(e)` or a failing `update` sends
`Error::with_chain(e, ErrorKind::SomaError)` to the error channel, which
the `select` surfaces as `Err`; a `Signal` in the main queue hits the
`unreachable!()` arm.  Returns the outcome and the current root soma. -/
def intoFutureRun (update : T → OImpulse E Sg Sy → Except CError T) :
    T → List (OImpulse E Sg Sy) → DriverOutcome × T
  | r, [] => (.pending, r)
  | r, imp :: rest =>
    match imp with
    | .stop => (.finished, r)
    | .err e => (.failed (.chained .somaError e), r)
    | .signal _ _ => (.panicked, r)
    | .payload src _ m =>
      match update r (.signal src m) with
      | .ok r2 => intoFutureRun update r2 rest
      | .error e => (.failed (.chained .somaError e), r)
    | .probe dest =>
      match update r (.probe dest) with
      | .ok r2 => intoFutureRun update r2 rest
      | .error e => (.failed (.chained .somaError e), r)
    | other =>
      match update r other with
      | .ok r2 => intoFutureRun update r2 rest
      | .error e => (.failed (.chained .somaError e), r)

/-- The routing state of an `Organelle` (`src/organelle.rs`): the handle
of its main (nucleus) soma, the handles of its registered children
(`nodes`; a `HashMap` keyed by fresh `Uuid`s, modelled as a duplicate-free
list), and the pending `connect` records `(input, output, role)`. -/
structure OrgModel (Sy : Type) where
  mainHdl : Handle
  nodes : List Handle
  connections : List (Handle × Handle × Sy)

/-- The sends performed by the connection-replay loop of
`Organelle::init` (`src/organelle.rs` lines 199–202): for each recorded
`connect(input, output, role)`, `AddOutput(output, role)` is sent to the
input soma's inbox and `AddInput(input, role)` to the output soma's
inbox; `update_node` fails with "node not found" when a handle is not
registered. -/
def orgConnectionSends (org : OrgModel Sy) :
    List (Handle × Handle × Sy) →
    Except CError (List (Handle × OImpulse E Sg Sy))
  | [] => .ok []
  | (input, output, role) :: rest =>
    if input ∈ org.nodes then
      if output ∈ org.nodes then
        match orgConnectionSends org rest with
        | .error e => .error e
        | .ok tail =>
          .ok ((input, .addOutput output role) ::
               (output, .addInput input role) :: tail)
      else .error (.simple (.msg "node not found"))
    else .error (.simple (.msg "node not found"))

/-- The child-inbox sends performed by `Organelle::init`
(`src/organelle.rs` lines 185–202): an `Init(Some(organelle_hdl),
effector)` to every registered node, then the recorded connections are
replayed in order.  `eff` builds the per-child effector (opaque). -/
def orgInit (org : OrgModel Sy) (orgHdl : Handle) (eff : Handle → E) :
    Except CError (List (Handle × OImpulse E Sg Sy)) :=
  match orgConnectionSends org org.connections with
  | .error e => .error e
  | .ok cs =>
    .ok (org.nodes.map (fun h => (h, .init (some orgHdl) (eff h))) ++ cs)

/-- The `Start` fan-out of `Organelle::start` (`src/organelle.rs` lines
227–233): `Impulse::Start` is sent to every registered node's inbox. -/
def orgStart (org : OrgModel Sy) : List (Handle × OImpulse E Sg Sy) :=
  org.nodes.map (fun h => (h, .start))

/-- `Organelle::update` (`src/organelle.rs` lines 334–352) rendered as the
child-inbox sends it performs: `Init` runs `init`; `AddInput`/`AddOutput`
run `add_input`/`add_output` (lines 235–245), which forward the impulse
unchanged to the main soma's inbox; `Start` runs the `start` fan-out;
`Signal(src, m)` is forwarded to the main soma; every other variant hits
the `unreachable!()` arm. -/
def orgUpdate (org : OrgModel Sy) (orgHdl : Handle) (eff : Handle → E) :
    OImpulse E Sg Sy → Except CError (List (Handle × OImpulse E Sg Sy))
  | .init _ _ => orgInit org orgHdl eff
  | .addInput input role => .ok [(org.mainHdl, .addInput input role)]
  | .addOutput output role => .ok [(org.mainHdl, .addOutput output role)]
  | .start => .ok (orgStart org)
  | .signal src m => .ok [(org.mainHdl, .signal src m)]
  | _ => .error (.simple .unreachableBranch)

/-- The sub-list of a send sequence that lands in the FIFO inbox of the
child `h` (per-inbox order is preserved). -/
def inboxTrace (h : Handle) (sends : List (Handle × OImpulse E Sg Sy)) :
    List (OImpulse E Sg Sy) :=
  (sends.filter (fun p => p.1 == h)).map (fun p => p.2)

/-! ### The Axon revision (`src/axon.rs`)

`src/axon.rs` imports `Impulse` from a `soma` module whose revision is
absent from `src/` (the `src/soma.rs` present is the older Protocol-era
helper).  The impulse datatype below is therefore modelled from the
spec; all the validation logic is translated from `src/axon.rs`. -/

/-- Modelled from the spec: the `Impulse<Synapse>` sum type of the axon.rs
revision (spec §3), whose defining `soma` module is missing from `src/`;
only its consumer `src/axon.rs` is present.  Variants follow spec §3 and
the exhaustive match in `Axon::update`: `AddDendrite(peer, kind,
dendrite)`, `AddTerminal(peer, kind, terminal)`, `Start(uuid, tx,
handle)`, `Probe(settings, tx)`, `Stop`, `Error(e)`.  `S` is the synapse
kind, `D`/`Tm` the opaque dendrite/terminal endpoint payloads, `Aux` the
remaining opaque payloads (control sender, scheduler handle, probe
settings, reply sink). -/
inductive AImpulse (S D Tm Aux : Type) where
  | addDendrite (peer : Handle) (syn : S) (den : D)
  | addTerminal (peer : Handle) (syn : S) (ter : Tm)
  | start (uuid : Handle) (tx : Aux) (sched : Aux)
  | probe (settings : Aux) (tx : Aux)
  | stop
  | err (e : CError)
  deriving DecidableEq

/-- `Constraint<S>` from `src/axon.rs` (lines 13–18). -/
inductive AConstraint (S : Type) where
  | one (s : S)
  | variadic (s : S)
  deriving DecidableEq, Repr

/-- `Requirement` from `src/axon.rs` (lines 21–25). -/
inductive Requirement where
  | unmet
  | metOne (u : Handle)
  | metVariadic (us : List Handle)
  deriving DecidableEq, Repr

/-- The `HashMap<Synapse, (Constraint, Requirement)>` tables of an `Axon`,
modelled as association lists with unique keys. -/
abbrev ATable (S : Type) := List (S × AConstraint S × Requirement)

/-- Map lookup (`HashMap::get` / `get_mut`). -/
def lookupTab [DecidableEq S] : ATable S → S →
    Option (AConstraint S × Requirement)
  | [], _ => none
  | (k2, v) :: rest, k => if k2 = k then some v else lookupTab rest k

/-- In-place mutation of the entry at a key (`HashMap::get_mut` followed
by an assignment): the first entry with the key is replaced. -/
def setTab [DecidableEq S] : ATable S → S →
    AConstraint S × Requirement → ATable S
  | [], _, _ => []
  | (k2, v2) :: rest, k, v =>
    if k2 = k then (k2, v) :: rest else (k2, v2) :: setTab rest k v

/-- The entry built for one constraint in `Axon::new` (lines 50–79):
`One(r)` maps `r` to `(One(r), Unmet)`; `Variadic(r)` maps `r` to
`(Variadic(r), MetVariadic(vec![]))`. -/
def constraintEntry (c : AConstraint S) :
    S × AConstraint S × Requirement :=
  match c with
  | .one r => (r, .one r, .unmet)
  | .variadic r => (r, .variadic r, .metVariadic [])

/-- Insertion with `HashMap::collect` semantics: a later entry with the
same key overwrites an earlier one. -/
def insertEntry [DecidableEq S] (tab : ATable S)
    (e : S × AConstraint S × Requirement) : ATable S :=
  tab.filter (fun p => decide ¬(p.1 = e.1)) ++ [e]

/-- The table built by `Axon::new` from a constraint vector. -/
def mkTable [DecidableEq S] (cs : List (AConstraint S)) : ATable S :=
  cs.foldl (fun tab c => insertEntry tab (constraintEntry c)) []

/-- `Axon::add_dendrite` (`src/axon.rs` lines 83–113) acting on the
`required_dendrites` table: missing key → `InvalidSynapse`; `One`+`Unmet`
→ `MetOne(uuid)`; `One`+`MetOne` → `InvalidSynapse`; `Variadic`+
`MetVariadic` → push; the remaining combinations are `unreachable!()`. -/
def add_dendrite [DecidableEq S] (tab : ATable S) (uuid : Handle)
    (synapse : S) : Except CError (ATable S) :=
  match lookupTab tab synapse with
  | none => .error (.simple (.invalidSynapse "no constraints found for synapse"))
  | some (c, req) =>
    match c, req with
    | .one _, .unmet => .ok (setTab tab synapse (c, .metOne uuid))
    | .one _, .metOne _ =>
      .error (.simple (.invalidSynapse "expected only one dendrite for synapse"))
    | .one _, .metVariadic _ => .error (.simple .unreachableBranch)
    | .variadic _, .metVariadic us =>
      .ok (setTab tab synapse (c, .metVariadic (us ++ [uuid])))
    | .variadic _, _ => .error (.simple .unreachableBranch)

/-- `Axon::add_terminal` (`src/axon.rs` lines 115–145), symmetric to
`add_dendrite` over the `required_terminals` table. -/
def add_terminal [DecidableEq S] (tab : ATable S) (uuid : Handle)
    (synapse : S) : Except CError (ATable S) :=
  match lookupTab tab synapse with
  | none => .error (.simple (.invalidSynapse "no constraints found for synapse"))
  | some (c, req) =>
    match c, req with
    | .one _, .unmet => .ok (setTab tab synapse (c, .metOne uuid))
    | .one _, .metOne _ =>
      .error (.simple (.invalidSynapse "expected only one terminal for synapse"))
    | .one _, .metVariadic _ => .error (.simple .unreachableBranch)
    | .variadic _, .metVariadic us =>
      .ok (setTab tab synapse (c, .metVariadic (us ++ [uuid])))
    | .variadic _, _ => .error (.simple .unreachableBranch)

/-- One validation pass of `Axon::start` (`src/axon.rs` lines 150–180)
over one table: a `One` constraint still `Unmet` fails with
`MissingSynapse(m)`; `One`+`MetOne` and `Variadic`+`MetVariadic` pass;
the remaining combinations are `unreachable!()`. -/
def startCheckTab (m : String) : ATable S → Except CError Unit
  | [] => .ok ()
  | (_, c, req) :: rest =>
    match c, req with
    | .one _, .unmet => .error (.simple (.missingSynapse m))
    | .one _, .metOne _ => startCheckTab m rest
    | .one _, .metVariadic _ => .error (.simple .unreachableBranch)
    | .variadic _, .metVariadic _ => startCheckTab m rest
    | .variadic _, _ => .error (.simple .unreachableBranch)

/-- The state of an `Axon<T>` (`src/axon.rs` lines 28–35): the wrapped
soma, the recorded uuid, and the two constraint tables. -/
structure AxonS (T S : Type) where
  soma : T
  uuid : Option Handle
  dendrites : ATable S
  terminals : ATable S
  deriving DecidableEq

/-- `Axon::new` (`src/axon.rs` lines 40–81). -/
def axonNew [DecidableEq S] (soma : T) (ds ts : List (AConstraint S)) :
    AxonS T S :=
  ⟨soma, none, mkTable ds, mkTable ts⟩

/-- `Axon::start` (`src/axon.rs` lines 147–183): record the uuid, then
validate the dendrite table and the terminal table in that order. -/
def axonStart [DecidableEq S] (a : AxonS T S) (uuid : Handle) :
    Except CError (AxonS T S) :=
  match startCheckTab "expected dendrite synapse" a.dendrites with
  | .error e => .error e
  | .ok _ =>
    match startCheckTab "expected terminal synapse" a.terminals with
    | .error e => .error e
    | .ok _ => .ok { a with uuid := some uuid }

/-- The constraint-description pass of `Axon::probe` (`src/axon.rs`
lines 207–252) over one table: a `One` constraint whose requirement is
`MetOne` yields its description; any other requirement under `One` is
`panic!("axon failed to validate")`; a `Variadic` constraint requires
`MetVariadic`, anything else being `unreachable!()`.  The `SomaData`
payload itself is elided — only the panic behaviour is kept. -/
def probeCheckTab : ATable S → Except CError Unit
  | [] => .ok ()
  | (_, c, req) :: rest =>
    match c, req with
    | .one _, .metOne _ => probeCheckTab rest
    | .one _, _ => .error (.simple (.panicked "axon failed to validate"))
    | .variadic _, .metVariadic _ => probeCheckTab rest
    | .variadic _, _ => .error (.simple .unreachableBranch)

/-- `Axon::probe` (`src/axon.rs` lines 205–265): the description is
built from the `terminals` table first, then `dendrites`, each pass
panicking on a `One` constraint not `MetOne`; then `self.uuid.unwrap()`
(line 254) panics when the axon never received `Start`; otherwise the
axon is returned unchanged (the `SomaData` sent on the reply sink is
elided, as it only affects that payload). -/
def axonProbe (a : AxonS T S) : Except CError (AxonS T S) :=
  match probeCheckTab a.terminals with
  | .error e => .error e
  | .ok _ =>
    match probeCheckTab a.dendrites with
    | .error e => .error e
    | .ok _ =>
      match a.uuid with
      | none => .error (.simple (.panicked "option unwrap on none"))
      | some _ => .ok a

/-- `Axon::update` (`src/axon.rs` lines 267–304): `AddDendrite` and
`AddTerminal` first validate and mutate the matching table, then forward
the same impulse to the wrapped soma; `Start` validates via
`Axon::start`, then forwards; `Probe` is handled by `perform_probe`,
which runs the axon's own `probe` (`axonProbe`: it panics on an
un-started or un-validated axon, and otherwise sends the description on
the reply sink and returns the axon unchanged) — the wrapped soma's
`update` is never invoked for it; `Stop` and `Error` bail with
"unexpected impulse in axon".  `innerUpdate` is the wrapped soma's
`update`. -/
def axonUpdate [DecidableEq S]
    (innerUpdate : T → AImpulse S D Tm Aux → Except CError T)
    (a : AxonS T S) (imp : AImpulse S D Tm Aux) :
    Except CError (AxonS T S) :=
  match imp with
  | .addDendrite peer syn _ =>
    match add_dendrite a.dendrites peer syn with
    | .error e => .error e
    | .ok dens =>
      match innerUpdate a.soma imp with
      | .error e => .error e
      | .ok s2 => .ok { a with dendrites := dens, soma := s2 }
  | .addTerminal peer syn _ =>
    match add_terminal a.terminals peer syn with
    | .error e => .error e
    | .ok ters =>
      match innerUpdate a.soma imp with
      | .error e => .error e
      | .ok s2 => .ok { a with terminals := ters, soma := s2 }
  | .start uuid _ _ =>
    match axonStart a uuid with
    | .error e => .error e
    | .ok a2 =>
      match innerUpdate a2.soma imp with
      | .error e => .error e
      | .ok s2 => .ok { a2 with soma := s2 }
  | .probe _ _ => axonProbe a
  | .stop => .error (.simple (.msg "unexpected impulse in axon"))
  | .err _ => .error (.simple (.msg "unexpected impulse in axon"))

/-- A sequence of `Axon::update` calls starting from an axon value:
`some` is the axon reproduced by the last successful update; once an
update fails the axon value is consumed by the error and the sequence
ends (`none`). -/
def axonRun [DecidableEq S]
    (innerUpdate : T → AImpulse S D Tm Aux → Except CError T) :
    AxonS T S → List (AImpulse S D Tm Aux) → Option (AxonS T S)
  | a, [] => some a
  | a, imp :: rest =>
    match axonUpdate innerUpdate a imp with
    | .ok a2 => axonRun innerUpdate a2 rest
    | .error _ => none

/-- Well-formedness of one table entry: a `One` constraint is paired only
with `Unmet` or `MetOne`, a `Variadic` constraint only with
`MetVariadic`. -/
def wfEntry (e : S × AConstraint S × Requirement) : Bool :=
  match e.2.1, e.2.2 with
  | .one _, .unmet => true
  | .one _, .metOne _ => true
  | .variadic _, .metVariadic _ => true
  | _, _ => false

/-- Well-formedness of a whole table. -/
def wfTable (tab : ATable S) : Bool := tab.all wfEntry

/-- Whether an entry is a `One` constraint whose fulfilment is `Unmet`. -/
def unmetOne (e : S × AConstraint S × Requirement) : Bool :=
  match e.2.1, e.2.2 with
  | .one _, .unmet => true
  | _, _ => false

/-- Whether a table has some `One` constraint still `Unmet`. -/
def hasUnmetOne (tab : ATable S) : Bool := tab.any unmetOne

/-- Whether an `Axon::update` result failed with a `MissingSynapse`
error. -/
def resultMissingSynapse : Except CError α → Bool
  | .error e => e.isMissingSynapse
  | .ok _ => false

/-! ## Theorems -/

/-- Claim C7: assuming the user-supplied From/Into conversions between the
outer and inner kind/message types are mutually inverse, converting a
protocol message from the outer types to the inner types and back
(`convert_protocol` composed with `convert_protocol`) is the identity on
the endpoint-add variants (`AddInput`/`AddOutput`) used at an organelle
boundary.  Only the kind-conversion inverse law is needed for these
variants, so the hypothesis is that single law. -/
theorem claim_c7 (fe : E → F) (ge : F → E) (fm : M → T) (gm : T → M)
    (fc : C → U) (gc : U → C) (hc : ∀ c, gc (fc c) = c)
    (hdl : Handle) (c : C) :
    Protocol.convert_protocol ge gm gc
        (Protocol.convert_protocol fe fm fc
          (Protocol.addInput hdl c : Protocol E M C)) = .addInput hdl c ∧
    Protocol.convert_protocol ge gm gc
        (Protocol.convert_protocol fe fm fc
          (Protocol.addOutput hdl c : Protocol E M C)) = .addOutput hdl c := by
  simp [Protocol.convert_protocol, hc]

/-- Witness for C7: concrete types and mutually inverse conversions. -/
theorem claim_c7_witness :
    Protocol.convert_protocol (fun x : Unit => x) (fun x : Unit => x)
        (fun n : Nat => n + 0)
        (Protocol.convert_protocol (fun x : Unit => x) (fun x : Unit => x)
          (fun n : Nat => n + 0)
          (Protocol.addInput 3 5 : Protocol Unit Unit Nat)) = .addInput 3 5 ∧
    Protocol.convert_protocol (fun x : Unit => x) (fun x : Unit => x)
        (fun n : Nat => n + 0)
        (Protocol.convert_protocol (fun x : Unit => x) (fun x : Unit => x)
          (fun n : Nat => n + 0)
          (Protocol.addOutput 3 5 : Protocol Unit Unit Nat)) = .addOutput 3 5 :=
  claim_c7 (fun x => x) (fun x => x) (fun x => x) (fun x => x)
    (fun n => n + 0) (fun n => n + 0) (fun _ => rfl) 3 5

/-- Claim C6: an `AddInput`/`AddOutput` impulse received by the organelle
from the enclosing system is forwarded unchanged to the inbox of the main
(nucleus) soma only; the inbox of any other child receives nothing, so
the organelle's external synapse surface is exactly the nucleus's. -/
theorem claim_c6 (org : OrgModel Sy) (orgHdl : Handle) (eff : Handle → E)
    (input output : Handle) (role : Sy) (h2 : Handle)
    (hne : h2 ≠ org.mainHdl) :
    orgUpdate org orgHdl eff (.addInput input role : OImpulse E Sg Sy) =
      .ok [(org.mainHdl, .addInput input role)] ∧
    orgUpdate org orgHdl eff (.addOutput output role : OImpulse E Sg Sy) =
      .ok [(org.mainHdl, .addOutput output role)] ∧
    inboxTrace h2
      [(org.mainHdl, (.addInput input role : OImpulse E Sg Sy))] = [] ∧
    inboxTrace h2
      [(org.mainHdl, (.addOutput output role : OImpulse E Sg Sy))] = [] := by
  have hb : (org.mainHdl == h2) = false :=
    beq_eq_false_iff_ne.mpr (Ne.symm hne)
  refine ⟨rfl, rfl, ?_, ?_⟩ <;> simp [inboxTrace, List.filter, hb]

/-- Witness for C6 at a concrete organelle. -/
theorem claim_c6_witness :
    orgUpdate (⟨0, [0, 1], []⟩ : OrgModel Unit) 7 (fun _ => ())
      (.addInput 5 () : OImpulse Unit Unit Unit) = .ok [(0, .addInput 5 ())] ∧
    orgUpdate (⟨0, [0, 1], []⟩ : OrgModel Unit) 7 (fun _ => ())
      (.addOutput 6 () : OImpulse Unit Unit Unit) = .ok [(0, .addOutput 6 ())] ∧
    inboxTrace 1 [(0, (.addInput 5 () : OImpulse Unit Unit Unit))] = [] ∧
    inboxTrace 1 [(0, (.addOutput 6 () : OImpulse Unit Unit Unit))] = [] :=
  claim_c6 ⟨0, [0, 1], []⟩ 7 (fun _ => ()) 5 6 () 1 (by decide)

/-- Claim C8 counterexample: the claim says every impulse kind other than
`AddDendrite`, `AddTerminal`, `Start`, `Stop` and `Error` passes through
the axon unchanged.  The only such kind is `Probe`, and `Axon::update`
intercepts it (`perform_probe`) instead of forwarding it: on a started
axon with no constraints (`uuid` recorded, nothing to validate, so the
probe succeeds) and a wrapped soma (here a counter) whose own `update`
would change state on `Probe`, the axon returns itself unchanged, which
differs from the pass-through result. -/
theorem claim_c8_counterexample :
    axonUpdate (fun (n : Nat) (_ : AImpulse Nat Unit Unit Unit) =>
        (Except.ok (n + 1) : Except CError Nat))
      (⟨0, some 3, [], []⟩ : AxonS Nat Nat) (.probe () ()) =
      .ok ⟨0, some 3, [], []⟩ ∧
    Except.map (fun s2 => (⟨s2, some 3, [], []⟩ : AxonS Nat Nat))
      ((fun (n : Nat) (_ : AImpulse Nat Unit Unit Unit) =>
          (Except.ok (n + 1) : Except CError Nat))
        (⟨0, some 3, [], []⟩ : AxonS Nat Nat).soma (.probe () ())) =
      .ok ⟨1, some 3, [], []⟩ ∧
    (Except.ok (⟨0, some 3, [], []⟩ : AxonS Nat Nat) :
        Except CError (AxonS Nat Nat)) ≠
      .ok ⟨1, some 3, [], []⟩ := by
  refine ⟨rfl, rfl, by simp⟩

/-- Claim C8 as amended: for every Axon, `Stop` and `Error(e)` make
`update` fail with the programming-error message "unexpected impulse in
axon" without forwarding to the wrapped soma; `Probe` — the only impulse
kind other than `AddDendrite`, `AddTerminal`, `Start`, `Stop`, `Error` —
is intercepted rather than passed through: `update` runs the axon's own
probe, never the wrapped soma's `update` (the result is `axonProbe a`
for every inner update function), and on an axon that has received
`Start` and whose constraint descriptions build without panicking the
axon is returned unchanged, with the wrapped soma untouched. -/
theorem claim_c8_amended [DecidableEq S]
    (iu : T → AImpulse S D Tm Aux → Except CError T)
    (a : AxonS T S) (st tx : Aux) (e : CError) :
    axonUpdate iu a (.stop : AImpulse S D Tm Aux) =
      .error (.simple (.msg "unexpected impulse in axon")) ∧
    axonUpdate iu a (.err e : AImpulse S D Tm Aux) =
      .error (.simple (.msg "unexpected impulse in axon")) ∧
    axonUpdate iu a (.probe st tx : AImpulse S D Tm Aux) = axonProbe a ∧
    (∀ u, a.uuid = some u →
      probeCheckTab a.terminals = .ok () →
      probeCheckTab a.dendrites = .ok () →
      axonUpdate iu a (.probe st tx : AImpulse S D Tm Aux) = .ok a) := by
  refine ⟨rfl, rfl, rfl, ?_⟩
  intro u hu ht hd
  simp only [axonUpdate, axonProbe, ht, hd, hu]

/-- Witness for the amended C8 at a started axon with a satisfied `One`
terminal constraint. -/
theorem claim_c8_amended_witness :
    axonUpdate
      (fun (n : Nat) (_ : AImpulse Nat Unit Unit Unit) =>
        (Except.ok (n + 1) : Except CError Nat))
      (⟨0, some 3, [], [(0, .one 0, .metOne 7)]⟩ : AxonS Nat Nat)
      (.probe () ()) =
      .ok ⟨0, some 3, [], [(0, .one 0, .metOne 7)]⟩ :=
  (claim_c8_amended
    (fun n _ => (Except.ok (n + 1) : Except CError Nat))
    (⟨0, some 3, [], [(0, .one 0, .metOne 7)]⟩ : AxonS Nat Nat)
    () () (.simple .lobeError)).2.2.2 3 rfl rfl rfl

/-- Helper: a queue whose processing is still pending is extended by a
`Stop` and an arbitrary tail into a run that finishes `Ok` having
delivered exactly the impulses of the pending prefix. -/
theorem libRun_stop_of_pending (update : N → Protocol E M C → Except CError N) :
    ∀ (pre : List (Protocol E M C)) (n : N) (post : List (Protocol E M C)),
    (libRun update n pre).outcome = .pending →
    libRun update n (pre ++ .stop :: post) =
      ⟨.finished, (libRun update n pre).node, (libRun update n pre).delivered⟩
  | [], n, post, _ => by simp [libRun]
  | imp :: rest, n, post, h => by
    cases imp with
    | stop => simp [libRun] at h
    | err e => simp [libRun] at h
    | message src m => simp [libRun] at h
    | payload src dest m =>
      rcases hu : update n (.message src m) with e | n2 <;>
        · simp only [libRun, hu] at h ⊢
          first
          | exact absurd h (by simp)
          | simp [libRun_stop_of_pending update rest n2 post h]
    | init eff =>
      rcases hu : update n (.init eff) with e | n2 <;>
        · simp only [libRun, hu] at h ⊢
          first
          | exact absurd h (by simp)
          | simp [libRun_stop_of_pending update rest n2 post h]
    | addInput hd c =>
      rcases hu : update n (.addInput hd c) with e | n2 <;>
        · simp only [libRun, hu] at h ⊢
          first
          | exact absurd h (by simp)
          | simp [libRun_stop_of_pending update rest n2 post h]
    | addOutput hd c =>
      rcases hu : update n (.addOutput hd c) with e | n2 <;>
        · simp only [libRun, hu] at h ⊢
          first
          | exact absurd h (by simp)
          | simp [libRun_stop_of_pending update rest n2 post h]
    | start =>
      rcases hu : update n .start with e | n2 <;>
        · simp only [libRun, hu] at h ⊢
          first
          | exact absurd h (by simp)
          | simp [libRun_stop_of_pending update rest n2 post h]

/-- Helper: the lib.rs driver never passes `Stop` to the root node's
`update` — `take_while` consumes it. -/
theorem libRun_stop_never_delivered
    (update : N → Protocol E M C → Except CError N) :
    ∀ (q : List (Protocol E M C)) (n : N),
    (Protocol.stop : Protocol E M C) ∉ (libRun update n q).delivered
  | [], n => by simp [libRun]
  | imp :: rest, n => by
    cases imp with
    | stop => simp [libRun]
    | err e => simp [libRun]
    | message src m => simp [libRun]
    | payload src dest m =>
      rcases hu : update n (.message src m) with e | n2
      · simp [libRun, hu]
      · simp [libRun, hu, libRun_stop_never_delivered update rest n2]
    | init eff =>
      rcases hu : update n (.init eff) with e | n2
      · simp [libRun, hu]
      · simp [libRun, hu, libRun_stop_never_delivered update rest n2]
    | addInput hd c =>
      rcases hu : update n (.addInput hd c) with e | n2
      · simp [libRun, hu]
      · simp [libRun, hu, libRun_stop_never_delivered update rest n2]
    | addOutput hd c =>
      rcases hu : update n (.addOutput hd c) with e | n2
      · simp [libRun, hu]
      · simp [libRun, hu, libRun_stop_never_delivered update rest n2]
    | start =>
      rcases hu : update n .start with e | n2
      · simp [libRun, hu]
      · simp [libRun, hu, libRun_stop_never_delivered update rest n2]

/-- Claim C2 counterexample: the claim says that whenever some soma sends
`Stop`, `run` returns `Ok`.  But an `Error` impulse dequeued before the
`Stop` is surfaced through the driver's error channel: on the queue
`[Err(boom), Stop]` the run fails with `boom` even though a `Stop` was
sent, so the unconditional claim is false. -/
theorem claim_c2_counterexample :
    (Protocol.stop : Protocol Unit Unit Unit) ∈
      [Protocol.err (.simple (.msg "boom")), Protocol.stop] ∧
    (libRun (fun (n : Unit) (_ : Protocol Unit Unit Unit) => Except.ok n) ()
        [Protocol.err (.simple (.msg "boom")), Protocol.stop]).outcome =
      .failed (.simple (.msg "boom")) ∧
    (libRun (fun (n : Unit) (_ : Protocol Unit Unit Unit) => Except.ok n) ()
        [Protocol.err (.simple (.msg "boom")), Protocol.stop]).outcome ≠
      .finished :=
  ⟨by simp, rfl, by simp [libRun]⟩

/-- Claim C2 as amended: if a soma sends `Stop` and every impulse
dequeued before the first `Stop` was processed without a failing update
and without an `Error` impulse (the prefix run is still pending), then
`run` returns `Ok`; moreover — unconditionally on the prefix — no
`update` is invoked with any impulse dequeued after the `Stop` (the
delivered impulses are exactly those of the prefix, independent of the
tail), and the driver consumes `Stop` itself, never delivering it to the
root soma's `update`. -/
theorem claim_c2_amended (update : N → Protocol E M C → Except CError N)
    (n : N) (pre post : List (Protocol E M C))
    (h : (libRun update n pre).outcome = .pending) :
    libRun update n (pre ++ .stop :: post) =
      ⟨.finished, (libRun update n pre).node, (libRun update n pre).delivered⟩ ∧
    (Protocol.stop : Protocol E M C) ∉
      (libRun update n (pre ++ .stop :: post)).delivered ∧
    (Protocol.stop : Protocol E M C) ∉ (libRun update n pre).delivered :=
  ⟨libRun_stop_of_pending update pre n post h,
   libRun_stop_never_delivered update (pre ++ .stop :: post) n,
   libRun_stop_never_delivered update pre n⟩

/-- Witness for the amended C2 at a concrete queue. -/
theorem claim_c2_amended_witness :
    libRun (fun (n : Unit) (_ : Protocol Unit Unit Unit) => Except.ok n) ()
        ([Protocol.start] ++ .stop :: [Protocol.err (.simple .lobeError)]) =
      ⟨.finished,
       (libRun (fun (n : Unit) (_ : Protocol Unit Unit Unit) => Except.ok n)
         () [Protocol.start]).node,
       (libRun (fun (n : Unit) (_ : Protocol Unit Unit Unit) => Except.ok n)
         () [Protocol.start]).delivered⟩ ∧
    (Protocol.stop : Protocol Unit Unit Unit) ∉
      (libRun (fun (n : Unit) (_ : Protocol Unit Unit Unit) => Except.ok n) ()
        ([Protocol.start] ++ .stop :: [Protocol.err (.simple .lobeError)])).delivered ∧
    (Protocol.stop : Protocol Unit Unit Unit) ∉
      (libRun (fun (n : Unit) (_ : Protocol Unit Unit Unit) => Except.ok n) ()
        [Protocol.start]).delivered :=
  claim_c2_amended (fun n _ => Except.ok n) ()
    [Protocol.start] [Protocol.err (.simple .lobeError)] rfl

/-- Helper: per-inbox traces split over concatenated send sequences. -/
theorem inboxTrace_append (h : Handle)
    (a b : List (Handle × OImpulse E Sg Sy)) :
    inboxTrace h (a ++ b) = inboxTrace h a ++ inboxTrace h b := by
  simp [inboxTrace]

/-- Helper: a handle absent from a constant fan-out receives nothing. -/
theorem inboxTrace_map_not_mem (h : Handle) (ns : List Handle)
    (x : OImpulse E Sg Sy) (hn : h ∉ ns) :
    inboxTrace h (ns.map (fun n => (n, x))) = [] := by
  induction ns with
  | nil => simp [inboxTrace]
  | cons n ns ih =>
    have hne : (n == h) = false :=
      beq_eq_false_iff_ne.mpr (fun hcontr => hn (hcontr ▸ List.mem_cons_self n ns))
    simp only [List.mem_cons, not_or] at hn
    have hne2 : (n == h) = false := beq_eq_false_iff_ne.mpr (Ne.symm hn.1)
    simp [inboxTrace, List.filter, hne2]
    have := ih hn.2
    simpa [inboxTrace] using this

/-- Helper: under duplicate-free handles, a registered child receives a
constant fan-out exactly once. -/
theorem inboxTrace_map_const (h : Handle) (ns : List Handle)
    (x : OImpulse E Sg Sy) (hnd : ns.Nodup) (hmem : h ∈ ns) :
    inboxTrace h (ns.map (fun n => (n, x))) = [x] := by
  induction ns with
  | nil => cases hmem
  | cons n ns ih =>
    rcases List.mem_cons.mp hmem with hEq | hMem
    · have hb : (n == h) = true := beq_iff_eq.mpr hEq.symm
      have hnotin : h ∉ ns := hEq ▸ (List.nodup_cons.mp hnd).1
      simp [inboxTrace, List.filter, hb]
      simpa [inboxTrace] using inboxTrace_map_not_mem h ns x hnotin
    · have hne : n ≠ h := by
        intro hcontr
        exact (List.nodup_cons.mp hnd).1 (hcontr ▸ hMem)
      have hb : (n == h) = false := beq_eq_false_iff_ne.mpr hne
      simp [inboxTrace, List.filter, hb]
      simpa [inboxTrace] using ih (List.nodup_cons.mp hnd).2 hMem

/-- Helper: every send produced by the connection-replay loop of
`Organelle::init` is an `AddOutput` or an `AddInput`, never a `Start`. -/
theorem orgConnectionSends_no_start (org : OrgModel Sy) :
    ∀ (conns : List (Handle × Handle × Sy))
    (sends : List (Handle × OImpulse E Sg Sy)),
    orgConnectionSends org conns = .ok sends →
    ∀ p ∈ sends, p.2 ≠ OImpulse.start
  | [], sends, hok => by
    simp only [orgConnectionSends] at hok
    injection hok with hok
    subst hok
    intro p hp
    cases hp
  | (input, output, role) :: rest, sends, hok => by
    by_cases hi : input ∈ org.nodes
    · by_cases ho : output ∈ org.nodes
      · rcases hr : (orgConnectionSends org rest :
            Except CError (List (Handle × OImpulse E Sg Sy))) with e | tail
        · simp [orgConnectionSends, hi, ho, hr] at hok
        · simp only [orgConnectionSends, hi, ho, hr, if_true] at hok
          injection hok with hok
          subst hok
          intro p hp
          rcases List.mem_cons.mp hp with hp1 | hp
          · subst hp1; simp
          · rcases List.mem_cons.mp hp with hp2 | hp
            · subst hp2; simp
            · exact orgConnectionSends_no_start org rest tail hr p hp
      · simp [orgConnectionSends, hi, ho] at hok
    · simp [orgConnectionSends, hi] at hok

/-- Claim C5: for every child registered in an organelle and every
`connect` made before start-up, all endpoint-installation impulses
(`AddInput`/`AddOutput`) destined for that child are placed in its FIFO
inbox while the organelle processes `Init` — before the `Start` fan-out
that runs when the organelle processes `Start` — and `Start` is delivered
to the child exactly once: the child's inbox trace is the `Init`-phase
trace (which contains no `Start`) followed by exactly one `Start`.
The driver sends the organelle `Init` then `Start`, once each
(`into_future`); `s1` and `s2` are the sends of those two updates. -/
theorem claim_c5 (org : OrgModel Sy) (orgHdl : Handle) (eff : Handle → E)
    (p : Option Handle) (e0 : E) (h : Handle)
    (s1 s2 : List (Handle × OImpulse E Sg Sy))
    (hnd : org.nodes.Nodup) (hmem : h ∈ org.nodes)
    (hi : orgUpdate org orgHdl eff (.init p e0) = .ok s1)
    (hs : orgUpdate org orgHdl eff .start = .ok s2) :
    inboxTrace h (s1 ++ s2) = inboxTrace h s1 ++ [OImpulse.start] ∧
    OImpulse.start ∉ inboxTrace h s1 := by
  have hs2 : s2 = orgStart org := by
    have : (Except.ok (orgStart org) :
        Except CError (List (Handle × OImpulse E Sg Sy))) = .ok s2 := hs
    injection this with this
    exact this.symm
  rcases hcs : (orgConnectionSends org org.connections :
      Except CError (List (Handle × OImpulse E Sg Sy))) with e | cs
  · simp [orgUpdate, orgInit, hcs] at hi
  · have hs1 : s1 =
        org.nodes.map (fun n => (n, .init (some orgHdl) (eff n))) ++ cs := by
      simp only [orgUpdate, orgInit, hcs] at hi
      injection hi with hi
      exact hi.symm
    constructor
    · rw [inboxTrace_append, hs2]
      rw [show orgStart org = org.nodes.map
          (fun n => (n, (OImpulse.start : OImpulse E Sg Sy))) from rfl]
      rw [inboxTrace_map_const h org.nodes _ hnd hmem]
    · rw [hs1, inboxTrace_append]
      intro hcontr
      rcases List.mem_append.mp hcontr with hin | hin
      · simp only [inboxTrace] at hin
        rcases List.mem_map.mp hin with ⟨q, hq, hq2⟩
        rcases List.mem_map.mp (List.mem_of_mem_filter hq) with ⟨n, _, hn⟩
        rw [← hn] at hq2
        cases hq2
      · simp only [inboxTrace] at hin
        rcases List.mem_map.mp hin with ⟨q, hq, hq2⟩
        exact orgConnectionSends_no_start org org.connections cs hcs q
          (List.mem_of_mem_filter hq) hq2

/-- Witness for C5: a two-child organelle with one recorded connection. -/
theorem claim_c5_witness :
    inboxTrace 1
      (([(0, .init (some 9) ()), (1, .init (some 9) ()),
         (0, .addOutput 1 ()), (1, .addInput 0 ())] :
          List (Handle × OImpulse Unit Unit Unit)) ++
       [(0, .start), (1, .start)]) =
      inboxTrace 1
        ([(0, .init (some 9) ()), (1, .init (some 9) ()),
          (0, .addOutput 1 ()), (1, .addInput 0 ())] :
            List (Handle × OImpulse Unit Unit Unit)) ++ [OImpulse.start] ∧
    OImpulse.start ∉
      inboxTrace 1
        ([(0, .init (some 9) ()), (1, .init (some 9) ()),
          (0, .addOutput 1 ()), (1, .addInput 0 ())] :
            List (Handle × OImpulse Unit Unit Unit)) :=
  claim_c5 (⟨0, [0, 1], [(0, 1, ())]⟩ : OrgModel Unit) 9 (fun _ => ())
    none () 1 _ _ (by decide) (by decide) rfl rfl

/-- Helper: the adapter fold splits over concatenated inbox segments. -/
theorem adapterRun_append (conv : OImpulse E Sg Sy → OImpulse F Tg Ty)
    (update : T → OImpulse F Tg Ty → Except CError T) :
    ∀ (pre rest : List (OImpulse E Sg Sy)) (st : Option T),
    adapterRun conv update st (pre ++ rest) =
      ((adapterRun conv update
          (adapterRun conv update st pre).1 rest).1,
       (adapterRun conv update st pre).2.1 ++
         (adapterRun conv update
           (adapterRun conv update st pre).1 rest).2.1,
       (adapterRun conv update st pre).2.2 ++
         (adapterRun conv update
           (adapterRun conv update st pre).1 rest).2.2)
  | [], rest, st => by simp [adapterRun]
  | imp :: pre, rest, st => by
    simp only [List.cons_append, adapterRun, List.append_eq]
    rw [adapterRun_append conv update pre rest]
    simp

/-- Helper: once the adapter's fold state is `None`, every further
impulse is received and discarded — the child is never updated and
nothing further is emitted on the main channel. -/
theorem adapterRun_none (conv : OImpulse E Sg Sy → OImpulse F Tg Ty)
    (update : T → OImpulse F Tg Ty → Except CError T) :
    ∀ (l : List (OImpulse E Sg Sy)),
    adapterRun conv update (none : Option T) l = (none, [], [])
  | [] => by simp [adapterRun]
  | imp :: rest => by
    simp [adapterRun, adapterStep, adapterRun_none conv update rest]

/-- Claim C10: in the per-child adapter task installed by
`Organelle::add_soma`, once the child's `update` has returned an error
the child value is dropped (the fold state becomes `None`) and no
impulse dequeued later is ever applied to it — they are received and
silently discarded — while exactly one `Error` impulse, wrapping the
failure with `ErrorKind::SomaError`, is emitted to the organelle's main
channel.  `pre` is the clean prefix of the child's inbox (`ap` the
impulses it applied), `ci` the impulse whose update fails, `post` the
rest of the inbox. -/
theorem claim_c10 (conv : OImpulse E Sg Sy → OImpulse F Tg Ty)
    (update : T → OImpulse F Tg Ty → Except CError T)
    (c0 c1 : T) (pre : List (OImpulse E Sg Sy)) (ci : OImpulse E Sg Sy)
    (post : List (OImpulse E Sg Sy)) (ap : List (OImpulse F Tg Ty))
    (e : CError)
    (h1 : adapterRun conv update (some c0) pre = (some c1, [], ap))
    (h2 : update c1 (conv ci) = .error e) :
    adapterRun conv update (some c0) (pre ++ ci :: post) =
      (none, [.err (.chained .somaError e)], ap ++ [conv ci]) ∧
    (∀ l, adapterRun conv update (none : Option T) l = (none, [], [])) := by
  constructor
  · rw [adapterRun_append conv update pre (ci :: post) (some c0), h1]
    simp [adapterRun, adapterStep, h2, adapterRun_none conv update post]
  · exact adapterRun_none conv update

/-- Witness for C10 at a concrete failing child. -/
theorem claim_c10_witness :
    adapterRun (fun i => i)
      (fun (_ : Unit) (_ : OImpulse Unit Unit Unit) =>
        (Except.error (.simple (.msg "boom")) : Except CError Unit))
      (some ()) ([] ++ OImpulse.start :: [OImpulse.stop]) =
      (none, [.err (.chained .somaError (.simple (.msg "boom")))],
       [] ++ [OImpulse.start]) ∧
    (∀ l, adapterRun (fun i => i)
      (fun (_ : Unit) (_ : OImpulse Unit Unit Unit) =>
        (Except.error (.simple (.msg "boom")) : Except CError Unit))
      (none : Option Unit) l = (none, [], [])) :=
  claim_c10 (fun i => i) _ () () [] .start [.stop] [] _ rfl rfl

/-- Helper: a main-channel queue whose processing is still pending is
continued by `into_future` on any extension, from the root soma the
prefix produced. -/
theorem intoFutureRun_append (update : T → OImpulse E Sg Sy → Except CError T) :
    ∀ (pre rest : List (OImpulse E Sg Sy)) (r : T),
    (intoFutureRun update r pre).1 = .pending →
    intoFutureRun update r (pre ++ rest) =
      intoFutureRun update (intoFutureRun update r pre).2 rest
  | [], rest, r, _ => by simp [intoFutureRun]
  | imp :: pre, rest, r, h => by
    cases imp with
    | stop => simp [intoFutureRun] at h
    | err e => simp [intoFutureRun] at h
    | signal src m => simp [intoFutureRun] at h
    | payload src dest m =>
      rcases hu : update r (.signal src m) with e | r2
      · simp [intoFutureRun, hu] at h
      · simp only [List.cons_append, intoFutureRun, hu] at h ⊢
        exact intoFutureRun_append update pre rest r2 h
    | probe dest =>
      rcases hu : update r (.probe dest) with e | r2
      · simp [intoFutureRun, hu] at h
      · simp only [List.cons_append, intoFutureRun, hu] at h ⊢
        exact intoFutureRun_append update pre rest r2 h
    | init p eff =>
      rcases hu : update r (.init p eff) with e | r2
      · simp [intoFutureRun, hu] at h
      · simp only [List.cons_append, intoFutureRun, hu] at h ⊢
        exact intoFutureRun_append update pre rest r2 h
    | addInput hd c =>
      rcases hu : update r (.addInput hd c) with e | r2
      · simp [intoFutureRun, hu] at h
      · simp only [List.cons_append, intoFutureRun, hu] at h ⊢
        exact intoFutureRun_append update pre rest r2 h
    | addOutput hd c =>
      rcases hu : update r (.addOutput hd c) with e | r2
      · simp [intoFutureRun, hu] at h
      · simp only [List.cons_append, intoFutureRun, hu] at h ⊢
        exact intoFutureRun_append update pre rest r2 h
    | start =>
      rcases hu : update r .start with e | r2
      · simp [intoFutureRun, hu] at h
      · simp only [List.cons_append, intoFutureRun, hu] at h ⊢
        exact intoFutureRun_append update pre rest r2 h

/-- Claim C1 counterexample: the claim asserts that whenever some hosted
soma's `update` returns `Err(e)`, the driver's run returns `Err` and
"never returns Ok in this case".  But the adapter's wrapped `Error`
impulse travels through the organelle's main channel, and if a `Stop`
(sent by any soma) is dequeued before it, `take_while` resolves the
stream and `into_future` returns `Ok`: here a child's update fails with
`boom`, the adapter emits exactly the wrapped `Error` impulse, yet the
driver — whose main queue holds `Stop` first — finishes `Ok`. -/
theorem claim_c1_counterexample :
    (fun (_ : Unit) (_ : OImpulse Unit Unit Unit) =>
        (Except.error (.simple (.msg "boom")) : Except CError Unit)) ()
      ((fun i => i) (OImpulse.signal 0 ())) = .error (.simple (.msg "boom")) ∧
    adapterRun (fun i => i)
      (fun (_ : Unit) (_ : OImpulse Unit Unit Unit) =>
        (Except.error (.simple (.msg "boom")) : Except CError Unit))
      (some ()) [.signal 0 ()] =
      (none, [.err (.chained .somaError (.simple (.msg "boom")))],
       [.signal 0 ()]) ∧
    (intoFutureRun (fun (r : Unit) (_ : OImpulse Unit Unit Unit) =>
        (Except.ok r : Except CError Unit)) ()
      [OImpulse.stop,
       .err (.chained .somaError (.simple (.msg "boom")))]).1 =
      .finished :=
  ⟨rfl, rfl, rfl⟩

/-- Claim C1 as amended: if some hosted soma's `update` returns `Err(e)`,
the hosting adapter chains it with `ErrorKind::SomaError` and emits it as
exactly one `Error` impulse on the organelle's main channel; whenever
that impulse is dequeued by the driver before any `Stop` (the prefix run
is still pending), `into_future` returns `Err(e')` with
`e' = with_chain(with_chain(e, SomaError), SomaError)` — the driver
chains once more — and `e'` wraps `e`; `run` returns `Ok` only when a
`Stop` precedes the wrapped `Error` impulse on the main channel. -/
theorem claim_c1_amended (conv : OImpulse E Sg Sy → OImpulse F Tg Ty)
    (cu : CT → OImpulse F Tg Ty → Except CError CT)
    (c0 c1 : CT) (cpre : List (OImpulse E Sg Sy)) (ci : OImpulse E Sg Sy)
    (cpost : List (OImpulse E Sg Sy)) (ap : List (OImpulse F Tg Ty))
    (e : CError) (ru : RT → OImpulse E Sg Sy → Except CError RT) (r0 : RT)
    (mpre mpost : List (OImpulse E Sg Sy))
    (h1 : adapterRun conv cu (some c0) cpre = (some c1, [], ap))
    (h2 : cu c1 (conv ci) = .error e)
    (h3 : (intoFutureRun ru r0 mpre).1 = .pending) :
    adapterRun conv cu (some c0) (cpre ++ ci :: cpost) =
      (none, [.err (.chained .somaError e)], ap ++ [conv ci]) ∧
    (intoFutureRun ru r0
        (mpre ++ .err (.chained .somaError e) :: mpost)).1 =
      .failed (.chained .somaError (.chained .somaError e)) ∧
    CError.wrapsB (.chained .somaError (.chained .somaError e)) e = true := by
  refine ⟨?_, ?_, ?_⟩
  · rw [adapterRun_append conv cu cpre (ci :: cpost) (some c0), h1]
    simp [adapterRun, adapterStep, h2, adapterRun_none conv cu cpost]
  · rw [intoFutureRun_append ru mpre (_ :: mpost) r0 h3]
    simp [intoFutureRun]
  · show CError.wrapsB (.chained .somaError (.chained .somaError e)) e = true
    unfold CError.wrapsB
    split
    · rfl
    · unfold CError.wrapsB
      simp

/-- Witness for the amended C1: the wrapped error precedes any `Stop`. -/
theorem claim_c1_amended_witness :
    adapterRun (fun i => i)
      (fun (_ : Unit) (_ : OImpulse Unit Unit Unit) =>
        (Except.error (.simple (.msg "boom")) : Except CError Unit))
      (some ()) ([] ++ OImpulse.signal 0 () :: []) =
      (none, [.err (.chained .somaError (.simple (.msg "boom")))],
       [] ++ [OImpulse.signal 0 ()]) ∧
    (intoFutureRun (fun (r : Unit) (_ : OImpulse Unit Unit Unit) =>
        (Except.ok r : Except CError Unit)) ()
      ([] ++ .err (.chained .somaError (.simple (.msg "boom"))) ::
        [OImpulse.stop])).1 =
      .failed (.chained .somaError
        (.chained .somaError (.simple (.msg "boom")))) ∧
    CError.wrapsB
      (.chained .somaError (.chained .somaError (.simple (.msg "boom"))))
      (.simple (.msg "boom")) = true :=
  claim_c1_amended (fun i => i) _ () () [] (.signal 0 ()) [] [] _ _ ()
    [] [.stop] rfl rfl rfl

/-- Helper: on a well-formed table, the `start` validation pass fails
with `MissingSynapse` exactly when some `One` constraint is `Unmet`. -/
theorem startCheckTab_eq (m : String) :
    ∀ (tab : ATable S), wfTable tab = true →
    startCheckTab m tab =
      (if hasUnmetOne tab then .error (.simple (.missingSynapse m))
       else .ok ())
  | [], _ => by simp [startCheckTab, hasUnmetOne]
  | (k, c, req) :: rest, hwf => by
    have hent : wfEntry (k, c, req) = true ∧ wfTable rest = true := by
      simpa [wfTable, List.all_cons] using hwf
    cases c with
    | one s =>
      cases req with
      | unmet => simp [startCheckTab, hasUnmetOne, unmetOne]
      | metOne u =>
        simp only [startCheckTab]
        rw [startCheckTab_eq m rest hent.2]
        cases hrest : rest.any unmetOne <;>
          simp [hasUnmetOne, unmetOne, hrest]
      | metVariadic us => simp [wfEntry] at hent
    | variadic s =>
      cases req with
      | unmet => simp [wfEntry] at hent
      | metOne u => simp [wfEntry] at hent
      | metVariadic us =>
        simp only [startCheckTab]
        rw [startCheckTab_eq m rest hent.2]
        cases hrest : rest.any unmetOne <;>
          simp [hasUnmetOne, unmetOne, hrest]

/-- Helper: `Axon::start` on well-formed tables records the uuid and
fails with `MissingSynapse` exactly when some `One` constraint is still
`Unmet`, checking dendrites before terminals. -/
theorem axonStart_eq [DecidableEq S] (a : AxonS T S) (u : Handle)
    (hwd : wfTable a.dendrites = true) (hwt : wfTable a.terminals = true) :
    axonStart a u =
      (if hasUnmetOne a.dendrites then
        .error (.simple (.missingSynapse "expected dendrite synapse"))
       else if hasUnmetOne a.terminals then
        .error (.simple (.missingSynapse "expected terminal synapse"))
       else .ok { a with uuid := some u }) := by
  unfold axonStart
  rw [startCheckTab_eq _ a.dendrites hwd, startCheckTab_eq _ a.terminals hwt]
  by_cases hd : hasUnmetOne a.dendrites
  · simp [hd]
  · by_cases ht : hasUnmetOne a.terminals
    · simp [hd, ht]
    · simp [hd, ht]

/-- Claim C3: for every axon with well-formed constraint tables (the
shape every axon reachable from `Axon::new` has, claim C9) and a wrapped
soma whose own failures are not `MissingSynapse`, `update` on
`Start(uuid, tx, sched)` fails with a `MissingSynapse` error if and only
if some entry of `required_dendrites` or `required_terminals` has
constraint `One` and fulfilment `Unmet`; and when no such entry exists
the `Start` impulse is forwarded unchanged to the wrapped soma (with the
uuid recorded). -/
theorem claim_c3 [DecidableEq S]
    (iu : T → AImpulse S D Tm Aux → Except CError T)
    (a : AxonS T S) (u : Handle) (tx sched : Aux)
    (hwd : wfTable a.dendrites = true) (hwt : wfTable a.terminals = true)
    (hinner : ∀ e, iu a.soma (.start u tx sched) = .error e →
      e.isMissingSynapse = false) :
    resultMissingSynapse (axonUpdate iu a (.start u tx sched)) =
      (hasUnmetOne a.dendrites || hasUnmetOne a.terminals) ∧
    ((hasUnmetOne a.dendrites || hasUnmetOne a.terminals) = false →
      axonUpdate iu a (.start u tx sched) =
        Except.map (fun s2 => { a with uuid := some u, soma := s2 })
          (iu a.soma (.start u tx sched))) := by
  have hstart := axonStart_eq a u hwd hwt
  by_cases hd : hasUnmetOne a.dendrites
  · rw [if_pos hd] at hstart
    simp only [axonUpdate, hstart]
    simp [resultMissingSynapse, CError.isMissingSynapse, hd]
  · by_cases ht : hasUnmetOne a.terminals
    · rw [if_neg hd, if_pos ht] at hstart
      simp only [axonUpdate, hstart]
      simp [resultMissingSynapse, CError.isMissingSynapse, hd, ht]
    · rw [if_neg hd, if_neg ht] at hstart
      simp only [axonUpdate, hstart]
      rcases hiu : iu a.soma (.start u tx sched) with e | s2
      · constructor
        · simp only [Bool.or_eq_true, not_or] at hd ht ⊢
          simp [resultMissingSynapse, hinner e hiu,
            Bool.not_eq_true] at *
          simp [hd, ht, hinner e hiu]
        · intro _
          simp [Except.map, hiu]
      · constructor
        · simp only [resultMissingSynapse]
          simp [Bool.not_eq_true] at hd ht
          simp [hd, ht]
        · intro _
          simp [Except.map, hiu]

/-- Witness for C3 at a concrete satisfied axon. -/
theorem claim_c3_witness :
    resultMissingSynapse
      (axonUpdate
        (fun (_ : Unit) (_ : AImpulse Nat Unit Unit Unit) =>
          (Except.ok () : Except CError Unit))
        (⟨(), none, [(0, .one 0, .metOne 7)], []⟩ : AxonS Unit Nat)
        (.start 3 () ())) =
      (hasUnmetOne [(0, AConstraint.one 0, Requirement.metOne 7)] ||
        hasUnmetOne ([] : ATable Nat)) :=
  (claim_c3
    (fun _ _ => (Except.ok () : Except CError Unit))
    (⟨(), none, [(0, .one 0, .metOne 7)], []⟩ : AxonS Unit Nat)
    3 () () (by decide) (by decide)
    (by intro e he; exact absurd he (by simp))).1

/-- Claim C4: for every axon and `AddDendrite(p, k, d)` impulse — if `k`
has no entry in `required_dendrites`, `update` fails with
`InvalidSynapse` and nothing is forwarded; if `k`'s constraint is `One`
with fulfilment `Unmet`, the fulfilment becomes `MetOne(p)` and the
impulse is forwarded to the inner soma; if `One` with fulfilment already
`MetOne`, `update` fails with `InvalidSynapse`; if `Variadic`, `p` is
appended to the `MetVariadic` list and the impulse is forwarded.
`AddTerminal(p, k, t)` behaves symmetrically over `required_terminals`. -/
theorem claim_c4 [DecidableEq S]
    (iu : T → AImpulse S D Tm Aux → Except CError T)
    (a : AxonS T S) (p : Handle) (k : S) (d : D) (t : Tm) :
    (lookupTab a.dendrites k = none →
      axonUpdate iu a (.addDendrite p k d) =
        .error (.simple (.invalidSynapse "no constraints found for synapse"))) ∧
    (∀ s, lookupTab a.dendrites k = some (.one s, .unmet) →
      axonUpdate iu a (.addDendrite p k d) =
        Except.map
          (fun s2 => { a with
            dendrites := setTab a.dendrites k (.one s, .metOne p),
            soma := s2 })
          (iu a.soma (.addDendrite p k d))) ∧
    (∀ s q, lookupTab a.dendrites k = some (.one s, .metOne q) →
      axonUpdate iu a (.addDendrite p k d) =
        .error (.simple (.invalidSynapse "expected only one dendrite for synapse"))) ∧
    (∀ s us, lookupTab a.dendrites k = some (.variadic s, .metVariadic us) →
      axonUpdate iu a (.addDendrite p k d) =
        Except.map
          (fun s2 => { a with
            dendrites := setTab a.dendrites k
              (.variadic s, .metVariadic (us ++ [p])),
            soma := s2 })
          (iu a.soma (.addDendrite p k d))) ∧
    (lookupTab a.terminals k = none →
      axonUpdate iu a (.addTerminal p k t) =
        .error (.simple (.invalidSynapse "no constraints found for synapse"))) ∧
    (∀ s, lookupTab a.terminals k = some (.one s, .unmet) →
      axonUpdate iu a (.addTerminal p k t) =
        Except.map
          (fun s2 => { a with
            terminals := setTab a.terminals k (.one s, .metOne p),
            soma := s2 })
          (iu a.soma (.addTerminal p k t))) ∧
    (∀ s q, lookupTab a.terminals k = some (.one s, .metOne q) →
      axonUpdate iu a (.addTerminal p k t) =
        .error (.simple (.invalidSynapse "expected only one terminal for synapse"))) ∧
    (∀ s us, lookupTab a.terminals k = some (.variadic s, .metVariadic us) →
      axonUpdate iu a (.addTerminal p k t) =
        Except.map
          (fun s2 => { a with
            terminals := setTab a.terminals k
              (.variadic s, .metVariadic (us ++ [p])),
            soma := s2 })
          (iu a.soma (.addTerminal p k t))) := by
  refine ⟨?_, ?_, ?_, ?_, ?_, ?_, ?_, ?_⟩
  · intro hl
    simp [axonUpdate, add_dendrite, hl]
  · intro s hl
    simp only [axonUpdate, add_dendrite, hl]
    rcases hiu : iu a.soma (.addDendrite p k d) with e | s2 <;>
      simp [Except.map, hiu]
  · intro s q hl
    simp [axonUpdate, add_dendrite, hl]
  · intro s us hl
    simp only [axonUpdate, add_dendrite, hl]
    rcases hiu : iu a.soma (.addDendrite p k d) with e | s2 <;>
      simp [Except.map, hiu]
  · intro hl
    simp [axonUpdate, add_terminal, hl]
  · intro s hl
    simp only [axonUpdate, add_terminal, hl]
    rcases hiu : iu a.soma (.addTerminal p k t) with e | s2 <;>
      simp [Except.map, hiu]
  · intro s q hl
    simp [axonUpdate, add_terminal, hl]
  · intro s us hl
    simp only [axonUpdate, add_terminal, hl]
    rcases hiu : iu a.soma (.addTerminal p k t) with e | s2 <;>
      simp [Except.map, hiu]

/-- Witness for C4: a `One`/`Unmet` dendrite entry becomes `MetOne` and
the impulse is forwarded to the inner soma. -/
theorem claim_c4_witness :
    axonUpdate
      (fun (n : Nat) (_ : AImpulse Nat Unit Unit Unit) =>
        (Except.ok (n + 1) : Except CError Nat))
      (⟨0, none, [(0, .one 0, .unmet)], []⟩ : AxonS Nat Nat)
      (.addDendrite 5 0 ()) =
      .ok ⟨1, none, [(0, .one 0, .metOne 5)], []⟩ :=
  ((claim_c4
      (fun n _ => (Except.ok (n + 1) : Except CError Nat))
      (⟨0, none, [(0, .one 0, .unmet)], []⟩ : AxonS Nat Nat)
      5 0 () ()).2.1 0 rfl).trans (by rfl)

/-- Helper: the entry `Axon::new` builds for a constraint is well
formed. -/
theorem wfEntry_constraintEntry (c : AConstraint S) :
    wfEntry (constraintEntry c) = true := by
  cases c <;> rfl

/-- Helper: overwrite-insertion preserves table well-formedness. -/
theorem wfTable_insertEntry [DecidableEq S] (tab : ATable S)
    (e : S × AConstraint S × Requirement)
    (hwf : wfTable tab = true) (he : wfEntry e = true) :
    wfTable (insertEntry tab e) = true := by
  simp only [wfTable, insertEntry, List.all_append, Bool.and_eq_true]
  refine ⟨?_, ?_⟩
  · simp only [wfTable, List.all_eq_true] at hwf
    simp only [List.all_eq_true]
    intro p hp
    exact hwf p (List.mem_of_mem_filter hp)
  · simp [List.all_cons, he]

/-- Helper: the tables built by `Axon::new` are well formed. -/
theorem wfTable_mkTable [DecidableEq S] (cs : List (AConstraint S)) :
    wfTable (mkTable cs) = true := by
  have general : ∀ (cs : List (AConstraint S)) (tab : ATable S),
      wfTable tab = true →
      wfTable (cs.foldl
        (fun tab c => insertEntry tab (constraintEntry c)) tab) = true := by
    intro cs
    induction cs with
    | nil => intro tab h; simpa using h
    | cons c cs ih =>
      intro tab h
      exact ih _ (wfTable_insertEntry tab (constraintEntry c) h
        (wfEntry_constraintEntry c))
  exact general cs [] rfl

/-- Helper: a lookup in a well-formed table returns a well-formed
constraint/requirement pair. -/
theorem lookupTab_wf [DecidableEq S] :
    ∀ (tab : ATable S) (k : S) (v : AConstraint S × Requirement),
    wfTable tab = true → lookupTab tab k = some v →
    wfEntry (k, v) = true
  | [], k, v, _, hl => by simp [lookupTab] at hl
  | (k2, v2) :: rest, k, v, hwf, hl => by
    have h2 : wfEntry (k2, v2) = true ∧ wfTable rest = true := by
      simpa [wfTable, List.all_cons] using hwf
    by_cases hk : k2 = k
    · simp only [lookupTab, if_pos hk] at hl
      injection hl with hl
      subst hl
      simpa [wfEntry] using h2.1
    · simp only [lookupTab, if_neg hk] at hl
      exact lookupTab_wf rest k v h2.2 hl

/-- Helper: replacing an entry by a well-formed one preserves table
well-formedness. -/
theorem wfTable_setTab [DecidableEq S] :
    ∀ (tab : ATable S) (k : S) (v : AConstraint S × Requirement),
    wfTable tab = true → wfEntry (k, v) = true →
    wfTable (setTab tab k v) = true
  | [], k, v, _, _ => rfl
  | (k2, v2) :: rest, k, v, hwf, he => by
    have h2 : wfEntry (k2, v2) = true ∧ wfTable rest = true := by
      simpa [wfTable, List.all_cons] using hwf
    by_cases hk : k2 = k
    · simp only [setTab, if_pos hk, wfTable, List.all_cons, Bool.and_eq_true]
      exact ⟨he, h2.2⟩
    · simp only [setTab, if_neg hk, wfTable, List.all_cons, Bool.and_eq_true]
      exact ⟨h2.1, wfTable_setTab rest k v h2.2 he⟩

/-- Helper: on a well-formed table, `add_dendrite` never hits its
`unreachable!()` branches and preserves well-formedness of an `Ok`
result. -/
theorem add_dendrite_wf [DecidableEq S] (tab : ATable S) (u : Handle)
    (k : S) (hwf : wfTable tab = true) :
    add_dendrite tab u k ≠ .error (.simple .unreachableBranch) ∧
    (∀ tab2, add_dendrite tab u k = .ok tab2 → wfTable tab2 = true) := by
  rcases hl : lookupTab tab k with _ | ⟨c, req⟩
  · simp [add_dendrite, hl]
  · have hwe := lookupTab_wf tab k (c, req) hwf hl
    cases c with
    | one s =>
      cases req with
      | unmet =>
        refine ⟨by simp [add_dendrite, hl], ?_⟩
        intro tab2 h2
        simp only [add_dendrite, hl] at h2
        injection h2 with h2
        subst h2
        exact wfTable_setTab tab k (.one s, .metOne u) hwf rfl
      | metOne q => simp [add_dendrite, hl]
      | metVariadic us => simp [wfEntry] at hwe
    | variadic s =>
      cases req with
      | unmet => simp [wfEntry] at hwe
      | metOne q => simp [wfEntry] at hwe
      | metVariadic us =>
        refine ⟨by simp [add_dendrite, hl], ?_⟩
        intro tab2 h2
        simp only [add_dendrite, hl] at h2
        injection h2 with h2
        subst h2
        exact wfTable_setTab tab k (.variadic s, .metVariadic (us ++ [u]))
          hwf rfl

/-- Helper: `add_terminal` is symmetric to `add_dendrite`. -/
theorem add_terminal_wf [DecidableEq S] (tab : ATable S) (u : Handle)
    (k : S) (hwf : wfTable tab = true) :
    add_terminal tab u k ≠ .error (.simple .unreachableBranch) ∧
    (∀ tab2, add_terminal tab u k = .ok tab2 → wfTable tab2 = true) := by
  rcases hl : lookupTab tab k with _ | ⟨c, req⟩
  · simp [add_terminal, hl]
  · have hwe := lookupTab_wf tab k (c, req) hwf hl
    cases c with
    | one s =>
      cases req with
      | unmet =>
        refine ⟨by simp [add_terminal, hl], ?_⟩
        intro tab2 h2
        simp only [add_terminal, hl] at h2
        injection h2 with h2
        subst h2
        exact wfTable_setTab tab k (.one s, .metOne u) hwf rfl
      | metOne q => simp [add_terminal, hl]
      | metVariadic us => simp [wfEntry] at hwe
    | variadic s =>
      cases req with
      | unmet => simp [wfEntry] at hwe
      | metOne q => simp [wfEntry] at hwe
      | metVariadic us =>
        refine ⟨by simp [add_terminal, hl], ?_⟩
        intro tab2 h2
        simp only [add_terminal, hl] at h2
        injection h2 with h2
        subst h2
        exact wfTable_setTab tab k (.variadic s, .metVariadic (us ++ [u]))
          hwf rfl

/-- Helper: on a well-formed table the `start` validation pass never hits
its `unreachable!()` branches. -/
theorem startCheckTab_no_unreachable (m : String) (tab : ATable S)
    (hwf : wfTable tab = true) :
    startCheckTab m tab ≠ .error (.simple .unreachableBranch) := by
  rw [startCheckTab_eq m tab hwf]
  by_cases h : hasUnmetOne tab <;> simp [h]

/-- Helper: a successful `Axon::update` preserves well-formedness of
both tables. -/
theorem axonUpdate_wf [DecidableEq S]
    (iu : T → AImpulse S D Tm Aux → Except CError T)
    (a : AxonS T S) (imp : AImpulse S D Tm Aux) (a2 : AxonS T S)
    (hwd : wfTable a.dendrites = true) (hwt : wfTable a.terminals = true)
    (h : axonUpdate iu a imp = .ok a2) :
    wfTable a2.dendrites = true ∧ wfTable a2.terminals = true := by
  cases imp with
  | addDendrite peer syn den =>
    rcases hd : add_dendrite a.dendrites peer syn with e | dens
    · simp [axonUpdate, hd] at h
    · rcases hiu : iu a.soma (.addDendrite peer syn den) with e | s2
      · simp [axonUpdate, hd, hiu] at h
      · simp only [axonUpdate, hd, hiu] at h
        injection h with h
        subst h
        exact ⟨(add_dendrite_wf a.dendrites peer syn hwd).2 dens hd, hwt⟩
  | addTerminal peer syn ter =>
    rcases ht : add_terminal a.terminals peer syn with e | ters
    · simp [axonUpdate, ht] at h
    · rcases hiu : iu a.soma (.addTerminal peer syn ter) with e | s2
      · simp [axonUpdate, ht, hiu] at h
      · simp only [axonUpdate, ht, hiu] at h
        injection h with h
        subst h
        exact ⟨hwd, (add_terminal_wf a.terminals peer syn hwt).2 ters ht⟩
  | start uuid tx sched =>
    rcases hs : axonStart a uuid with e | a3
    · simp [axonUpdate, hs] at h
    · have ha3 : a3.dendrites = a.dendrites ∧ a3.terminals = a.terminals := by
        simp only [axonStart] at hs
        rcases h1 : startCheckTab "expected dendrite synapse" a.dendrites
          with e | u1
        · simp [h1] at hs
        · rcases h2 : startCheckTab "expected terminal synapse" a.terminals
            with e | u2
          · simp [h1, h2] at hs
          · simp only [h1, h2] at hs
            injection hs with hs
            subst hs
            exact ⟨rfl, rfl⟩
      rcases hiu : iu a3.soma (.start uuid tx sched) with e | s2
      · simp [axonUpdate, hs, hiu] at h
      · simp only [axonUpdate, hs, hiu] at h
        injection h with h
        subst h
        exact ⟨by simpa [ha3.1] using hwd, by simpa [ha3.2] using hwt⟩
  | probe st tx =>
    simp only [axonUpdate, axonProbe] at h
    rcases h1 : probeCheckTab a.terminals with e | u1
    · simp [h1] at h
    · rcases h2 : probeCheckTab a.dendrites with e | u2
      · simp [h1, h2] at h
      · rcases h3 : a.uuid with _ | u3
        · simp [h1, h2, h3] at h
        · simp only [h1, h2, h3] at h
          injection h with h
          subst h
          exact ⟨hwd, hwt⟩
  | stop => simp [axonUpdate] at h
  | err e => simp [axonUpdate] at h

/-- Claim C9: every axon reachable from `Axon::new` by any sequence of
successful `update` calls keeps well-formed constraint tables — a `One`
constraint is paired only with `Unmet` or `MetOne`, a `Variadic`
constraint only with `MetVariadic` — and consequently the
`unreachable!()` branches in `add_dendrite`, `add_terminal` and `start`
can never be executed on it. -/
theorem claim_c9 [DecidableEq S]
    (iu : T → AImpulse S D Tm Aux → Except CError T)
    (s0 : T) (ds ts : List (AConstraint S))
    (l : List (AImpulse S D Tm Aux)) (a : AxonS T S)
    (hrun : axonRun iu (axonNew s0 ds ts) l = some a) :
    wfTable a.dendrites = true ∧ wfTable a.terminals = true ∧
    (∀ (u : Handle) (k : S),
      add_dendrite a.dendrites u k ≠ .error (.simple .unreachableBranch) ∧
      add_terminal a.terminals u k ≠ .error (.simple .unreachableBranch)) ∧
    (∀ m : String,
      startCheckTab m a.dendrites ≠ .error (.simple .unreachableBranch) ∧
      startCheckTab m a.terminals ≠ .error (.simple .unreachableBranch)) := by
  have reach : ∀ (l : List (AImpulse S D Tm Aux)) (a0 a : AxonS T S),
      wfTable a0.dendrites = true → wfTable a0.terminals = true →
      axonRun iu a0 l = some a →
      wfTable a.dendrites = true ∧ wfTable a.terminals = true := by
    intro l
    induction l with
    | nil =>
      intro a0 a h1 h2 hr
      simp only [axonRun] at hr
      injection hr with hr
      subst hr
      exact ⟨h1, h2⟩
    | cons imp rest ih =>
      intro a0 a h1 h2 hr
      rcases hu : axonUpdate iu a0 imp with e | a1
      · simp [axonRun, hu] at hr
      · simp only [axonRun, hu] at hr
        have h3 := axonUpdate_wf iu a0 imp a1 h1 h2 hu
        exact ih a1 a h3.1 h3.2 hr
  have hwf := reach l (axonNew s0 ds ts) a
    (wfTable_mkTable ds) (wfTable_mkTable ts) hrun
  refine ⟨hwf.1, hwf.2, ?_, ?_⟩
  · intro u k
    exact ⟨(add_dendrite_wf a.dendrites u k hwf.1).1,
      (add_terminal_wf a.terminals u k hwf.2).1⟩
  · intro m
    exact ⟨startCheckTab_no_unreachable m a.dendrites hwf.1,
      startCheckTab_no_unreachable m a.terminals hwf.2⟩

/-- Witness for C9: a concrete axon after one successful add. -/
theorem claim_c9_witness :
    wfTable
      ((⟨(), none, [(0, .one 0, .metOne 5)], []⟩ : AxonS Unit Nat).dendrites) =
      true ∧
    add_dendrite
      ((⟨(), none, [(0, .one 0, .metOne 5)], []⟩ : AxonS Unit Nat).dendrites)
      9 0 ≠ .error (.simple .unreachableBranch) := by
  have h := claim_c9
    (fun (_ : Unit) (_ : AImpulse Nat Unit Unit Unit) =>
      (Except.ok () : Except CError Unit))
    () [.one 0] [] [.addDendrite 5 0 ()]
    (⟨(), none, [(0, .one 0, .metOne 5)], []⟩ : AxonS Unit Nat) (by rfl)
  exact ⟨h.1, (h.2.2.1 9 0).1⟩

end OrganelleSpec
